import Mathlib

/-!
# Verification of the shogun-kunai transport and transfer engine

A shallow embedding, in Lean 4, of the core algorithms of the Yumi signed
channel (`src/yumi.ts`), the Yari encrypted overlay (`src/yari.ts`) and the
Kunai chunked file-transfer engine (`src/kunai.ts`), together with proofs of
the behavioural properties claimed by the specification.

Byte strings are modelled as `List Nat` (each element a byte value),
JavaScript strings as Lean `String`/`List Char`, JavaScript `Map`/object
tables as association lists, and millisecond timestamps as `Nat`.
External cryptographic primitives that the repository calls are treated as
follows: `nacl.hash` is SHA-512 (implemented below in full), while signing,
box encryption and SEA encryption are parameters of the embedding, since the
properties proved here hold for every choice of those primitives.
-/

/-! ## SHA-512 (`nacl.hash`)

`tweetnacl`'s `nacl.hash` is SHA-512 (FIPS 180-4).  The implementation below
operates on `List Nat` bytes, with 64-bit words represented as `Nat` reduced
modulo `2 ^ 64`. -/

/-- Right rotation of a 64-bit word. -/
def rotr64 (n x : Nat) : Nat := ((x >>> n) ||| (x <<< (64 - n))) % 2 ^ 64

/-- SHA-512 big sigma 0. -/
def bigSigma0 (x : Nat) : Nat := rotr64 28 x ^^^ rotr64 34 x ^^^ rotr64 39 x

/-- SHA-512 big sigma 1. -/
def bigSigma1 (x : Nat) : Nat := rotr64 14 x ^^^ rotr64 18 x ^^^ rotr64 41 x

/-- SHA-512 small sigma 0. -/
def smallSigma0 (x : Nat) : Nat := rotr64 1 x ^^^ rotr64 8 x ^^^ (x >>> 7)

/-- SHA-512 small sigma 1. -/
def smallSigma1 (x : Nat) : Nat := rotr64 19 x ^^^ rotr64 61 x ^^^ (x >>> 6)

/-- SHA-512 choice function. -/
def shaCh (x y z : Nat) : Nat := (x &&& y) ^^^ ((x ^^^ (2 ^ 64 - 1)) &&& z)

/-- SHA-512 majority function. -/
def shaMaj (x y z : Nat) : Nat := (x &&& y) ^^^ (x &&& z) ^^^ (y &&& z)

/-- The 80 SHA-512 round constants (FIPS 180-4 section 4.2.3). -/
def sha512K : List Nat :=
  [4794697086780616226, 8158064640168781261, 13096744586834688815,
   16840607885511220156, 4131703408338449720, 6480981068601479193,
   10538285296894168987, 12329834152419229976, 15566598209576043074,
   1334009975649890238, 2608012711638119052, 6128411473006802146,
   8268148722764581231, 9286055187155687089, 11230858885718282805,
   13951009754708518548, 16472876342353939154, 17275323862435702243,
   1135362057144423861, 2597628984639134821, 3308224258029322869,
   5365058923640841347, 6679025012923562964, 8573033837759648693,
   10970295158949994411, 12119686244451234320, 12683024718118986047,
   13788192230050041572, 14330467153632333762, 15395433587784984357,
   489312712824947311, 1452737877330783856, 2861767655752347644,
   3322285676063803686, 5560940570517711597, 5996557281743188959,
   7280758554555802590, 8532644243296465576, 9350256976987008742,
   10552545826968843579, 11727347734174303076, 12113106623233404929,
   14000437183269869457, 14369950271660146224, 15101387698204529176,
   15463397548674623760, 17586052441742319658, 1182934255886127544,
   1847814050463011016, 2177327727835720531, 2830643537854262169,
   3796741975233480872, 4115178125766777443, 5681478168544905931,
   6601373596472566643, 7507060721942968483, 8399075790359081724,
   8693463985226723168, 9568029438360202098, 10144078919501101548,
   10430055236837252648, 11840083180663258601, 13761210420658862357,
   14299343276471374635, 14566680578165727644, 15097957966210449927,
   16922976911328602910, 17689382322260857208, 500013540394364858,
   748580250866718886, 1242879168328830382, 1977374033974150939,
   2944078676154940804, 3659926193048069267, 4368137639120453308,
   4836135668995329356, 5532061633213252278, 6448918945643986474,
   6902733635092675308, 7801388544844847127]

/-- The eight SHA-512 working variables. -/
structure Hash8 where
  a : Nat
  b : Nat
  c : Nat
  d : Nat
  e : Nat
  f : Nat
  g : Nat
  h : Nat
deriving DecidableEq, Repr

/-- SHA-512 initial hash value (FIPS 180-4 section 5.3.5). -/
def sha512H0 : Hash8 :=
  { a := 7640891576956012808, b := 13503953896175478587,
    c := 4354685564936845355, d := 11912009170470909681,
    e := 5840696475078001361, f := 11170449401992604703,
    g := 2270897969802886507, h := 6620516959819538809 }

/-- One SHA-512 round with round constant `k` and schedule word `w`. -/
def sha512Round (k w : Nat) (s : Hash8) : Hash8 :=
  let t1 := (s.h + bigSigma1 s.e + shaCh s.e s.f s.g + k + w) % 2 ^ 64
  let t2 := (bigSigma0 s.a + shaMaj s.a s.b s.c) % 2 ^ 64
  { a := (t1 + t2) % 2 ^ 64, b := s.a, c := s.b, d := s.c,
    e := (s.d + t1) % 2 ^ 64, f := s.e, g := s.f, h := s.g }

/-- The 80-entry SHA-512 message schedule for one 16-word block. -/
def sha512Schedule (m : List Nat) : List Nat :=
  (List.range 80).foldl
    (fun ws t =>
      if t < 16 then ws ++ [m.getD t 0]
      else ws ++ [(smallSigma1 (ws.getD (t - 2) 0) + ws.getD (t - 7) 0 +
                   smallSigma0 (ws.getD (t - 15) 0) + ws.getD (t - 16) 0) % 2 ^ 64])
    []

/-- SHA-512 compression of one block (given as 16 big-endian 64-bit words). -/
def sha512Compress (hs : Hash8) (m : List Nat) : Hash8 :=
  let ws := sha512Schedule m
  let s := (List.range 80).foldl
    (fun s t => sha512Round (sha512K.getD t 0) (ws.getD t 0) s) hs
  { a := (hs.a + s.a) % 2 ^ 64, b := (hs.b + s.b) % 2 ^ 64,
    c := (hs.c + s.c) % 2 ^ 64, d := (hs.d + s.d) % 2 ^ 64,
    e := (hs.e + s.e) % 2 ^ 64, f := (hs.f + s.f) % 2 ^ 64,
    g := (hs.g + s.g) % 2 ^ 64, h := (hs.h + s.h) % 2 ^ 64 }

/-- Big-endian byte serialisation of `x` to `n` bytes. -/
def beBytes (n x : Nat) : List Nat :=
  (List.range n).map (fun i => (x >>> (8 * (n - 1 - i))) % 256)

/-- Big-endian interpretation of a byte list as one word. -/
def bytesToWord (bs : List Nat) : Nat := bs.foldl (fun acc b => acc * 256 + b) 0

/-- The 16 big-endian words of a 128-byte block. -/
def blockWords (blk : List Nat) : List Nat :=
  (List.range 16).map (fun i => bytesToWord ((blk.drop (8 * i)).take 8))

/-- SHA-512 padding: append `0x80`, zeros, and the 128-bit big-endian bit
length, to a multiple of 128 bytes. -/
def sha512Pad (msg : List Nat) : List Nat :=
  msg ++ [0x80] ++ List.replicate ((128 - ((msg.length + 17) % 128)) % 128) 0 ++
    beBytes 16 (8 * msg.length)

/-- Split a padded message into its 128-byte blocks. -/
def sha512Blocks (l : List Nat) : List (List Nat) :=
  (List.range (l.length / 128)).map (fun i => (l.drop (128 * i)).take 128)

/-- SHA-512 of a byte string, as the 64-byte digest.  This is `nacl.hash`
from `tweetnacl`, used by `src/yumi.ts` for both the message key of
`sendRaw` and the deduplication hash of `onMessage`. -/
def sha512 (msg : List Nat) : List Nat :=
  let final := (sha512Blocks (sha512Pad msg)).foldl
    (fun hs blk => sha512Compress hs (blockWords blk)) sha512H0
  beBytes 8 final.a ++ beBytes 8 final.b ++ beBytes 8 final.c ++ beBytes 8 final.d ++
    beBytes 8 final.e ++ beBytes 8 final.f ++ beBytes 8 final.g ++ beBytes 8 final.h

/-! ## Hex encoding (`toHex` from `src/utils.ts`) -/

/-- Lowercase hex digit for a value below 16. -/
def hexDigit (n : Nat) : Char := "0123456789abcdef".data.getD n '0'

/-- The two lowercase hex digits of one byte (`b.toString(16).padStart(2,'0')`). -/
def byteHex (b : Nat) : List Char := [hexDigit (b / 16 % 16), hexDigit (b % 16)]

/-- `toHex` from `src/utils.ts`: lowercase hex string of a byte list. -/
def toHexStr (bs : List Nat) : String := String.mk (bs.flatMap byteHex)

/-- Key lookup in an association-list model of a JavaScript object / `Map`:
the value of the first entry with the given key. -/
def alookup {κ α : Type} [DecidableEq κ] : List (κ × α) → κ → Option α
  | [], _ => none
  | (k, v) :: rest, key => if key = k then some v else alookup rest key

/-! ## Base64 (Node `Buffer.toString('base64')` / `Buffer.from(b64,'base64')`)

`arrayBufferToBase64` and `reassembleFile` in `src/kunai.ts` use the standard
RFC 4648 base64 alphabet with `=` padding. -/

/-- The base64 alphabet character of a sextet value. -/
def b64chr (n : Nat) : Char :=
  "ABCDEFGHIJKLMNOPQRSTUVWXYZabcdefghijklmnopqrstuvwxyz0123456789+/".data.getD n 'A'

/-- Base64 encoding of a byte list (with `=` padding), the semantics of
`Buffer.from(bytes).toString('base64')` used by `arrayBufferToBase64` in
`src/kunai.ts`. -/
def base64encode : List Nat → List Char
  | a :: b :: c :: rest =>
      b64chr (a / 4) :: b64chr (a % 4 * 16 + b / 16) ::
        b64chr (b % 16 * 4 + c / 64) :: b64chr (c % 64) :: base64encode rest
  | [a, b] => [b64chr (a / 4), b64chr (a % 4 * 16 + b / 16), b64chr (b % 16 * 4), '=']
  | [a] => [b64chr (a / 4), b64chr (a % 4 * 16), '=', '=']
  | [] => []

/-- Sextet value of a base64 alphabet character; `none` for `=` and any
character outside the alphabet (Node's decoder skips those). -/
def b64val (c : Char) : Option Nat :=
  let n := c.toNat
  if 65 ≤ n ∧ n ≤ 90 then some (n - 65)
  else if 97 ≤ n ∧ n ≤ 122 then some (n - 97 + 26)
  else if 48 ≤ n ∧ n ≤ 57 then some (n - 48 + 52)
  else if c = '+' then some 62
  else if c = '/' then some 63
  else none

/-- Byte reassembly of a list of sextet values, four sextets to three bytes,
with the usual truncated final group. -/
def b64groups : List Nat → List Nat
  | a :: b :: c :: d :: rest =>
      (a * 4 + b / 16) :: (b % 16 * 16 + c / 4) :: (c % 4 * 64 + d) :: b64groups rest
  | [a, b, c] => [a * 4 + b / 16, b % 16 * 16 + c / 4]
  | [a, b] => [a * 4 + b / 16]
  | _ => []

/-- Base64 decoding of a string, the semantics of
`Buffer.from(base64String, 'base64')` used by `reassembleFile` in
`src/kunai.ts`. -/
def base64decode (s : String) : List Nat := b64groups (s.data.filterMap b64val)

/-! ## Kunai transfer engine (`src/kunai.ts`) -/

/-- Transfer metadata as published at `files/<transfer_id>` by `sendFile`
(`src/kunai.ts` lines 490-499). -/
structure FileMetadata where
  name : String
  size : Nat
  totalChunks : Nat
  sender : String
deriving DecidableEq, Repr

/-- The payload of the `file-received` event emitted by `reassembleFile`
(`src/kunai.ts` lines 461-467), with `data` the decoded byte list. -/
structure FileReceivedEvent where
  filename : String
  size : Nat
  data : List Nat
  fileId : String
deriving DecidableEq, Repr

/-- `reassembleFile` (`src/kunai.ts` lines 445-473): base64-decode the
reassembled string and emit the `file-received` payload. -/
def reassembleFile (base64String : String) (m : FileMetadata) (fileId : String) :
    FileReceivedEvent :=
  { filename := m.name, size := m.size, data := base64decode base64String, fileId := fileId }

/-- The reassembly scan shared by the final sweep (`src/kunai.ts` lines
256-267), the timeout sweep (lines 333-344) and the retransmission callback
(lines 413-424): walk indices `0 .. totalChunks-1`, concatenating the chunk
strings that are present and recording whether every index was present.
A JavaScript object entry is truthy exactly when it is a non-empty string, so
absence is modelled as `""` (the receive listener never stores an empty
`chunk.data`, guarded at line 191). -/
def assemblyScan (receivedChunks : Nat → String) (total : Nat) : String × Bool :=
  (List.range total).foldl
    (fun acc i =>
      if receivedChunks i ≠ "" then (acc.1 ++ receivedChunks i, acc.2)
      else (acc.1, false))
    ("", true)

/-- The guarded reassembly at the end of every sweep (`src/kunai.ts` lines
269-276): `reassembleFile` is invoked only when every index was present;
otherwise no `file-received` event is produced. -/
def sweepReassembly (receivedChunks : Nat → String) (m : FileMetadata)
    (fileId : String) : Option FileReceivedEvent :=
  let scan := assemblyScan receivedChunks m.totalChunks
  if scan.2 then some (reassembleFile scan.1 m fileId) else none

/-- The chunk size actually used by `Kunai`: `opts?.chunkSize || CHUNK_SIZE`
(`src/kunai.ts` line 63), where `CHUNK_SIZE = 10000` and a missing or zero
(falsy) option falls back to the default. -/
def effectiveChunkSize : Option Nat → Nat
  | none => 10000
  | some n => if n = 0 then 10000 else n

/-- `totalChunks = Math.ceil(base64Data.length / this.chunkSize)`
(`src/kunai.ts` line 485). -/
def totalChunksFor (len cs : Nat) : Nat := (len + cs - 1) / cs

/-- The chunk data strings written by the `sendFile` upload loop
(`src/kunai.ts` lines 509-527): chunk `i` is
`base64Data.slice(i * chunkSize, (i + 1) * chunkSize)`, for
`i` in `[0, totalChunks)`, in ascending index order. -/
def sendFileChunkData (data : List Nat) (csOpt : Option Nat) : List (List Char) :=
  let b64 := base64encode data
  let cs := effectiveChunkSize csOpt
  (List.range (totalChunksFor b64.length cs)).map
    (fun i => (b64.drop (i * cs)).take cs)

/-- Sender cache entry (`src/kunai.ts` lines 54, 543-547): chunk map,
metadata and creation time. -/
structure CacheEntry where
  chunks : List (Nat × String)
  meta : FileMetadata
  timestamp : Nat
deriving DecidableEq, Repr

/-- `CACHE_RETENTION = 5 * 60 * 1000` (`src/kunai.ts` line 55). -/
def CACHE_RETENTION : Nat := 5 * 60 * 1000

/-- The period of the cache sweeper (`src/kunai.ts` line 163). -/
def CACHE_SWEEP_INTERVAL : Nat := 60000

/-- One tick of `startCacheCleanup` (`src/kunai.ts` lines 148-164): collect
the ids of the entries with `now - cached.timestamp > CACHE_RETENTION`, then
delete exactly those ids from the cache (timestamps are `Date.now()` values;
`Nat` subtraction truncates at zero exactly as the JavaScript comparison
`now - ts > RETENTION` is false for a future timestamp). -/
def cacheCleanupSweep (cache : List (String × CacheEntry)) (nowT : Nat) :
    List (String × CacheEntry) :=
  let toDelete := (cache.filter (fun q => CACHE_RETENTION < nowT - q.2.timestamp)).map (·.1)
  cache.filter (fun q => ¬ toDelete.contains q.1)

/-- Reply value of the two retransmission RPC handlers (absent JSON fields
are modelled as `none` / `[]`). -/
structure RpcReply where
  success : Bool
  error : Option String
  fileId : Option String
  chunks : List (Nat × String)
deriving DecidableEq, Repr

/-- The `request-chunks` RPC handler (`src/kunai.ts` lines 102-130): if the
cache has no entry for `fileId`, reply with the cache-miss error; otherwise
walk `missingChunks` in order, pushing an `{index, data}` pair for every
requested index whose cached entry is truthy (present and non-empty). -/
def requestChunksHandler (cache : List (String × CacheEntry)) (fileId : String)
    (missingChunks : List Nat) : RpcReply :=
  match alookup cache fileId with
  | none => { success := false, error := some "File not in cache", fileId := none, chunks := [] }
  | some cached =>
      let chunks := missingChunks.foldl
        (fun acc i =>
          match alookup cached.chunks i with
          | some d => if d = "" then acc else acc ++ [(i, d)]
          | none => acc)
        []
      { success := true, error := none, fileId := some fileId, chunks := chunks }

/-- The `transfer-confirmed` RPC handler (`src/kunai.ts` lines 133-143):
delete the cache entry for `fileId` and reply `{success: true}`. -/
def transferConfirmedHandler (cache : List (String × CacheEntry)) (fileId : String) :
    List (String × CacheEntry) × RpcReply :=
  (cache.filter (fun q => q.1 ≠ fileId),
   { success := true, error := none, fileId := none, chunks := [] })

/-! ## Yumi signed channel (`src/yumi.ts`)

The channel state and the message-processing pipeline.  JavaScript object
tables (`peers`, `seen`, `callbacks`, `api`) are modelled as association
lists with replace-on-assign insertion; object keys are unique.  The
environment-dependent primitives — `JSON.parse`, Ed25519 verification,
box encryption/decryption and the address derivation
`base58check(0x55 || RIPEMD160(SHA512(pk)))` — are parameters of the
embedding (`ChanEnv`); every theorem below holds for all instantiations. -/

/-- Channel peer entry (`PeerInfo` in `src/types.ts`). -/
structure PeerInfo where
  pk : String
  ek : String
  last : Nat
deriving DecidableEq, Repr

/-- A parsed JSON value, as far as the control flow of `src/yumi.ts`
inspects one: the dispatcher only ever asks whether a parse succeeded and
whether the result is truthy, so compound values are collapsed into `obj`. -/
inductive JsonV where
  | null
  | bool (b : Bool)
  | num (n : Int)
  | str (s : String)
  | obj
deriving DecidableEq, Repr

/-- JavaScript truthiness of a parsed JSON value. -/
def JsonV.truthy : JsonV → Bool
  | .null => false
  | .bool b => b
  | .num n => decide (n ≠ 0)
  | .str s => decide (s ≠ "")
  | .obj => true

/-- The signed payload (`MessagePacket` in `src/types.ts`): send time `t`,
channel identifier `i`, signing key `pk`, box key `ek`, nonce `n`, type `y`
and the optional type-specific fields. -/
structure Packet where
  t : Nat
  i : String
  pk : String
  ek : String
  n : String
  y : String
  v : Option String
  c : Option String
  a : Option String
  rn : Option String
  rr : Option String
deriving DecidableEq, Repr

/-- `packet.a || "null"` / `packet.rr || "null"`: a missing or empty (falsy)
field defaults to the string `"null"` before `JSON.parse`. -/
def orNullStr : Option String → String
  | some s => if s = "" then "null" else s
  | none => "null"

/-- Channel state: the mutable fields of a `Yumi` instance that the message
pipeline reads or writes (`src/yumi.ts` lines 97-118). -/
structure ChannelState where
  identifier : String
  timeout : Nat
  selfAddress : String
  peers : List (String × PeerInfo)
  seen : List (String × Nat)
  callbacks : List String
  api : List String
  serveraddress : Option String
  lastpeercount : Nat
deriving DecidableEq, Repr

/-- Environment parameters of the channel embedding: `JSON.parse` on the
payload strings, the address derivation `bugout.address(pk)`, the box
encryption of a packet for a recipient `ek`, and the full decode / decrypt /
signature-verify stage of `onMessage` (lines 538-578) which yields the
verification result and the parsed packet, or `none` when decoding,
decryption or payload extraction fails. -/
structure ChanEnv where
  parse : String → Option JsonV
  addrOf : String → String
  encryptWith : String → String → String
  parseEnvelope : List Nat → Option (Bool × Packet)

/-- Observable actions of the channel: emitted events, handler and callback
invocations. -/
inductive ChEvent where
  | seen (addr : String)
  | server (addr : String)
  | connections (n : Nat)
  | message (addr : String) (v : JsonV)
  | rpcReq (addr : String) (call : String) (args : JsonV) (rn : Option String)
  | handlerInvoked (call : String) (addr : String)
  | apiErrorReply (pk : String) (rn : Option String)
  | rpcResponse (addr : String) (rn : String) (v : JsonV)
  | callbackInvoked (rn : String) (v : JsonV)
  | ping (addr : String)
  | left (addr : String)
deriving DecidableEq, Repr

/-- Whether an observable action is an invocation of the pending RPC
callback registered under `nonce`. -/
def ChEvent.isInvokeOf (nonce : String) : ChEvent → Bool
  | ChEvent.callbackInvoked rn _ => rn = nonce
  | _ => false

/-- Number of invocations of the callback registered under `nonce` among a
list of observable actions. -/
def invokedCount (nonce : String) (evs : List ChEvent) : Nat :=
  (evs.filter (ChEvent.isInvokeOf nonce)).length

/-- Replace-on-assign insertion into an object table (`obj[key] = value`). -/
def assignKey {α : Type} (l : List (String × α)) (k : String) (v : α) :
    List (String × α) :=
  (k, v) :: l.filter (fun q => q.1 ≠ k)

/-- JavaScript truthiness of `bugout.seen[hash]`: the key is present with a
non-zero timestamp. -/
def seenTruthy (seen : List (String × Nat)) (hash : String) : Bool :=
  match alookup seen hash with
  | some v => decide (v ≠ 0)
  | none => false

/-- `sawPeer` (`src/yumi.ts` lines 700-737): upsert the peer table keyed by
the sender's derived address, emitting `seen` (and possibly `server` and
`connections`) when the peer is new or its entry has gone stale. -/
def sawPeer (env : ChanEnv) (st : ChannelState) (pk ek : String) (nowT : Nat) :
    ChannelState × List ChEvent :=
  let address := env.addrOf pk
  if address = st.selfAddress then (st, [])
  else
    let fresh := match alookup st.peers address with
      | some entry => decide (entry.last + st.timeout < nowT)
      | none => true
    if fresh then
      let peers := assignKey st.peers address { pk := pk, ek := ek, last := nowT }
      let serverHit := address = st.identifier
      let st1 := { st with peers := peers,
                           serveraddress := if serverHit then some address else st.serveraddress }
      let count := peers.length
      let connEvs : List ChEvent :=
        if count ≠ st.lastpeercount then [ChEvent.connections count] else []
      ({ st1 with lastpeercount := if count ≠ st.lastpeercount then count else st.lastpeercount },
       [ChEvent.seen address] ++ (if serverHit then [ChEvent.server address] else []) ++ connEvs)
    else
      match alookup st.peers address with
      | some entry =>
          ({ st with peers := assignKey st.peers address { entry with ek := ek, last := nowT } }, [])
      | none => (st, [])

/-- Dispatch of a verified packet by its type `y` (`src/yumi.ts` lines
599-669), including the `rpcCall` reply behaviour (lines 681-698) and the
truthiness-guarded callback invocation of the `rr` branch (lines 626-656). -/
def dispatchPacket (env : ChanEnv) (st : ChannelState) (p : Packet) :
    ChannelState × List ChEvent :=
  let addr := env.addrOf p.pk
  if p.y = "m" then
    let mj := match p.v with
      | some s => env.parse s
      | none => none
    match mj with
    | some j => if j.truthy then (st, [ChEvent.message addr j]) else (st, [])
    | none => (st, [])
  else if p.y = "r" then
    let call := p.c.getD "undefined"
    let args := match env.parse (orNullStr p.a) with
      | some j => j
      | none => JsonV.null
    let reply : List ChEvent :=
      if call ∈ st.api then [ChEvent.handlerInvoked call addr]
      else [ChEvent.apiErrorReply p.pk p.rn]
    (st, [ChEvent.rpcReq addr call args p.rn] ++ reply)
  else if p.y = "rr" then
    match p.rn with
    | some nonce =>
        if nonce ∈ st.callbacks then
          match env.parse (orNullStr p.rr) with
          | some j =>
              if j.truthy then
                ({ st with callbacks := st.callbacks.filter (fun q => q ≠ nonce) },
                 [ChEvent.rpcResponse addr nonce j, ChEvent.callbackInvoked nonce j])
              else (st, [])
          | none => (st, [])
        else (st, [])
    | none => (st, [])
  else if p.y = "p" then (st, [ChEvent.ping addr])
  else if p.y = "x" then
    ({ st with peers := st.peers.filter (fun q => q.1 ≠ addr) }, [ChEvent.left addr])
  else (st, [])

/-- Processing of a decoded signed packet (`src/yumi.ts` lines 570-671):
check the signature result, the channel identifier and the freshness window;
on success update the peer table via `sawPeer` and dispatch by type, and
otherwise drop the packet with no state change and no events. -/
def processSignedPacket (env : ChanEnv) (st : ChannelState) (checksig : Bool)
    (p : Packet) (nowT : Nat) : ChannelState × List ChEvent :=
  if checksig ∧ p.i = st.identifier ∧ p.t + st.timeout > nowT then
    let step1 := sawPeer env st p.pk p.ek nowT
    let step2 := dispatchPacket env step1.1 p
    (step2.1, step1.2 ++ step2.2)
  else (st, [])

/-- The deduplication hash of `onMessage` (`src/yumi.ts` line 526):
`toHex(nacl.hash(message).slice(16))`. -/
def onMessageHash (message : List Nat) : String := toHexStr ((sha512 message).drop 16)

/-- The graph-store key computed by `sendRaw` (`src/yumi.ts` line 497):
`toHex(nacl.hash(messageBuffer).slice(16))`. -/
def sendRawKey (message : List Nat) : String := toHexStr ((sha512 message).drop 16)

/-- `onMessage` (`src/yumi.ts` lines 520-679): hash the raw bytes, drop the
message if the hash is already in the seen table, otherwise record it and
run the decode / verify / dispatch pipeline. -/
def onMessage (env : ChanEnv) (st : ChannelState) (message : List Nat)
    (nowT : Nat) : ChannelState × List ChEvent :=
  let hash := onMessageHash message
  if seenTruthy st.seen hash then (st, [])
  else
    let st1 := { st with seen := assignKey st.seen hash nowT }
    match env.parseEnvelope message with
    | none => (st1, [])
    | some q => processSignedPacket env st1 q.1 q.2 nowT

/-- Sequential processing of a list of incoming raw messages with their
arrival times. -/
def runTrace (env : ChanEnv) (st : ChannelState) :
    List (List Nat × Nat) → ChannelState
  | [] => st
  | m :: rest => runTrace env (onMessage env st m.1 m.2).1 rest

/-! ### Send paths (`Yumi.send`, `Yumi.rpc`) -/

/-- UTF-8 bytes of one character. -/
def utf8Char (c : Char) : List Nat :=
  let n := c.toNat
  if n < 0x80 then [n]
  else if n < 0x800 then [0xC0 ||| (n >>> 6), 0x80 ||| (n &&& 0x3F)]
  else if n < 0x10000 then
    [0xE0 ||| (n >>> 12), 0x80 ||| ((n >>> 6) &&& 0x3F), 0x80 ||| (n &&& 0x3F)]
  else
    [0xF0 ||| (n >>> 18), 0x80 ||| ((n >>> 12) &&& 0x3F),
     0x80 ||| ((n >>> 6) &&& 0x3F), 0x80 ||| (n &&& 0x3F)]

/-- UTF-8 bytes of a string (`toBuffer` on strings in `src/utils.ts`). -/
def utf8Bytes (s : String) : List Nat := s.data.flatMap utf8Char

/-- `sendRaw` (`src/yumi.ts` lines 491-508): store the base64 of the message
under its hash key at `messages/<hash>` and mark the hash as seen.  The
returned pair is the updated state and the `(key, value)` write. -/
def sendRaw (st : ChannelState) (message : String) (nowT : Nat) :
    ChannelState × (String × String) :=
  let hash := sendRawKey (utf8Bytes message)
  ({ st with seen := assignKey st.seen hash nowT }, (hash, message))

/-- `encryptPacket` (`src/yumi.ts` lines 466-489): re-derive the address of
the recipient's signing key, look its box key up in the peer table and
encrypt; throws when the peer is unknown. -/
def encryptPacket (env : ChanEnv) (st : ChannelState) (pk packet : String) :
    Except String String :=
  let address := env.addrOf pk
  match alookup st.peers address with
  | some pinfo => Except.ok (env.encryptWith pinfo.ek packet)
  | none => Except.error (address ++ " not seen - no encryption key.")

/-- The directed branch of `Yumi.send` (`src/yumi.ts` lines 384-404) for an
already-constructed signed packet (`makePacket` precedes the peer check and
performs no state mutation): if the recipient is unknown, throw the
`UnknownPeer` error synchronously with no graph-store write; otherwise
box-encrypt and `sendRaw`.  The result is the new state, the writes
performed, and the error surfaced to the caller (if any). -/
def yumiSendDirected (env : ChanEnv) (st : ChannelState) (address packet : String)
    (nowT : Nat) : ChannelState × List (String × String) × Option String :=
  match alookup st.peers address with
  | some pinfo =>
      match encryptPacket env st pinfo.pk packet with
      | Except.ok enc =>
          let step := sendRaw st enc nowT
          (step.1, [step.2], none)
      | Except.error e => (st, [], some e)
  | none => (st, [], some (address ++ " not seen - no public key."))

/-- `Yumi.rpc` (`src/yumi.ts` lines 411-437) in its four-argument form with
no server address set: if the recipient is unknown, throw `UnknownPeer`
synchronously, registering no callback and writing nothing; otherwise
register the callback under the nonce and send the encrypted request. -/
def yumiRpc (env : ChanEnv) (st : ChannelState) (address packet callnonce : String)
    (nowT : Nat) : ChannelState × List (String × String) × Option String :=
  match alookup st.peers address with
  | some pinfo =>
      let st1 := { st with callbacks := callnonce :: st.callbacks.filter (fun q => q ≠ callnonce) }
      match encryptPacket env st1 pinfo.pk packet with
      | Except.ok enc =>
          let step := sendRaw st1 enc nowT
          (step.1, [step.2], none)
      | Except.error e => (st1, [], some e)
  | none => (st, [], some (address ++ " not seen - no public key."))

/-! ## Yari encrypted overlay (`src/yari.ts`) -/

/-- Overlay peer entry (`YariPeerInfo` in `src/types.ts`). -/
structure YariPeer where
  pub : String
  epub : String
deriving DecidableEq, Repr

/-- The `encoded` listener installed by the `Yari` constructor (`src/yari.ts`
lines 60-67): forward `yumi.send(encrypted[0], encrypted[1])` only when the
payload is an array of length exactly 2; otherwise warn and drop. -/
def encodedListener (payload : List String) : Option (String × String) :=
  if payload.length = 2 then some (payload.getD 0 "", payload.getD 1 "")
  else none

/-- The `encoded` payloads emitted by the broadcast branch of `Yari.send`
(`src/yari.ts` lines 183-194): for each overlay peer, derive the shared
secret and encrypt — modelled by the `encrypt` parameter, which returns
`none` when `SEA.secret`/`SEA.encrypt` throws for that peer — and emit the
three-element array `[peer, enc, msgId]`.  A failed peer is logged and
skipped without aborting the others. -/
def yariBroadcastPayloads (peers : List (String × YariPeer))
    (encrypt : YariPeer → Option String) (msgId : String) : List (List String) :=
  peers.filterMap (fun q => (encrypt q.2).map (fun enc => [q.1, enc, msgId]))

/-- The directed Channel sends actually performed by a `Yari` broadcast: the
emitted `encoded` payloads filtered through the constructor's listener. -/
def yariBroadcastSends (peers : List (String × YariPeer))
    (encrypt : YariPeer → Option String) (msgId : String) : List (String × String) :=
  (yariBroadcastPayloads peers encrypt msgId).filterMap encodedListener

/-- The `peer` request handler (`src/yari.ts` lines 102-117): when the caller
supplies truthy `pub` and `epub`, insert them into the overlay peer table and
reply `{success: true}`; otherwise reply `{success: false, ...}`. -/
def yariPeerHandler (peers : List (String × YariPeer)) (address : String)
    (sea : Option YariPeer) : List (String × YariPeer) × Bool :=
  match sea with
  | some keys =>
      if keys.pub ≠ "" ∧ keys.epub ≠ "" then (assignKey peers address keys, true)
      else (peers, false)
  | none => (peers, false)

/-! ## Concrete fixtures used by witnesses and counterexamples -/

/-- `JSON.parse` restricted to the literal forms exercised by the concrete
instances below (`null`, `true`, `false`, decimal integers); every other
string is treated as failing to parse.  The general theorems are quantified
over an arbitrary parse function; this concrete one is only used to
instantiate them, and agrees with `JSON.parse` on these literals. -/
def jsParseLit (s : String) : Option JsonV :=
  if s = "null" then some JsonV.null
  else if s = "true" then some (JsonV.bool true)
  else if s = "false" then some (JsonV.bool false)
  else if s.data ≠ [] ∧ s.data.all Char.isDigit then
    some (JsonV.num (Int.ofNat (s.data.foldl (fun acc c => acc * 10 + (c.toNat - 48)) 0)))
  else none

/-- A concrete channel environment: literal JSON parsing, the identity
address derivation and transparent encryption. -/
def chanEnvLit : ChanEnv :=
  { parse := jsParseLit,
    addrOf := fun pk => pk,
    encryptWith := fun _ packet => packet,
    parseEnvelope := fun _ => none }

/-- Concrete receiver chunk map used to instantiate the reassembly theorem:
a one-chunk transfer of the two bytes of `"hi"` (base64 `aGk=`). -/
def c1chunks : Nat → String := fun i => if i = 0 then "aGk=" else ""

/-- Concrete transfer metadata for the one-chunk transfer. -/
def c1meta : FileMetadata :=
  { name := "h.txt", size := 2, totalChunks := 1, sender := "A" }


/-- A concrete channel state: freshly constructed, no peers and nothing seen. -/
def chanStateEmpty : ChannelState :=
  { identifier := "room", timeout := 300000, selfAddress := "me", peers := [],
    seen := [], callbacks := [], api := [], serveraddress := none,
    lastpeercount := 0 }


/-- A concrete verified packet whose send time is exactly `timeout + 1`
milliseconds in the past at receipt time `300095` (`timeout = 300000`). -/
def c8packet : Packet :=
  { t := 94, i := "room", pk := "pkX", ek := "ekX", n := "01", y := "m",
    v := some "true", c := none, a := none, rn := none, rr := none }


/-- A concrete sender cache with one fresh and one stale entry. -/
def c5cache : List (String × CacheEntry) :=
  [("12-alpha-ninja", { chunks := [(0, "aGk=")], meta := c1meta, timestamp := 1000000 }),
   ("3-kilo-tokyo", { chunks := [(0, "QQ==")], meta := c1meta, timestamp := 100 })]


/-- A concrete sender cache holding the two chunks of one transfer. -/
def c6cache : List (String × CacheEntry) :=
  [("7-alpha-bravo", { chunks := [(0, "AA"), (1, "BB")], meta := c1meta, timestamp := 0 })]


/-- The peer table is keyed by the address derived from each entry's signing
key — the invariant maintained by both insertion sites (`sawPeer` and the
presence subscription, which key the table by `address(pk)`). -/
def wellKeyedPeers (env : ChanEnv) (peers : List (String × PeerInfo)) : Prop :=
  ∀ a pinfo, alookup peers a = some pinfo → env.addrOf pinfo.pk = a

/-- A concrete channel state knowing the single peer `"addrA"`. -/
def c7state : ChannelState :=
  { chanStateEmpty with peers := [("addrA", { pk := "addrA", ek := "ekA", last := 5 })] }


/-- A concrete channel state with one pending RPC callback under nonce
`"aabb"`. -/
def c10state : ChannelState := { chanStateEmpty with callbacks := ["aabb"] }

/-- A verified response packet for nonce `"aabb"` whose result string is
`"null"` — it parses as JSON, to the falsy value `null`. -/
def c10packet : Packet :=
  { t := 50, i := "room", pk := "pkX", ek := "ekX", n := "02", y := "rr",
    v := none, c := none, a := none, rn := some "aabb", rr := some "null" }

/-- A verified response packet for nonce `"aabb"` whose result string `"7"`
parses to a truthy JSON value. -/
def c10truthyPacket : Packet :=
  { t := 50, i := "room", pk := "pkX", ek := "ekX", n := "03", y := "rr",
    v := none, c := none, a := none, rn := some "aabb", rr := some "7" }


/-! Theorems -/

theorem chunks_flatten_aux {α : Type} (cs : Nat) (hcs : 0 < cs) :
    ∀ (N : Nat) (l : List α), l.length ≤ N →
      ((List.range ((l.length + cs - 1) / cs)).map
        (fun i => (l.drop (i * cs)).take cs)).flatten = l := by
  intro N
  induction N with
  | zero =>
      intro l hl
      have hnil : l = [] := List.eq_nil_of_length_eq_zero (Nat.le_zero.mp hl)
      subst hnil
      have : (0 + cs - 1) / cs = 0 := Nat.div_eq_of_lt (by omega)
      simp [this]
  | succ N ih =>
      intro l hl
      rcases l with _ | ⟨x, xs⟩
      · have : (0 + cs - 1) / cs = 0 := Nat.div_eq_of_lt (by omega)
        simp [this]
      · set l := x :: xs with hldef
        have hlen : 1 ≤ l.length := by simp [hldef]
        have hdl : (l.drop cs).length = l.length - cs := by simp
        have hceil : (l.length + cs - 1) / cs = ((l.drop cs).length + cs - 1) / cs + 1 := by
          rw [hdl]
          rcases Nat.le_total l.length cs with hle | hge
          · have h1 : l.length + cs - 1 = (l.length - 1) + cs := by omega
            have h2 : l.length - cs = 0 := by omega
            rw [h1, Nat.add_div_right _ hcs, h2]
            have : (l.length - 1) / cs = 0 := Nat.div_eq_of_lt (by omega)
            have h0 : (0 + cs - 1) / cs = 0 := Nat.div_eq_of_lt (by omega)
            omega
          · have h1 : l.length + cs - 1 = (l.length - cs + cs - 1) + cs := by omega
            rw [h1, Nat.add_div_right _ hcs]
        rw [hceil, List.range_succ_eq_map, List.map_cons, List.flatten_cons, List.map_map]
        have hmap :
            List.map ((fun i => (l.drop (i * cs)).take cs) ∘ Nat.succ)
                (List.range (((l.drop cs).length + cs - 1) / cs)) =
              List.map (fun i => ((l.drop cs).drop (i * cs)).take cs)
                (List.range (((l.drop cs).length + cs - 1) / cs)) := by
          apply List.map_congr_left
          intro i _
          show (l.drop (Nat.succ i * cs)).take cs = ((l.drop cs).drop (i * cs)).take cs
          rw [List.drop_drop]
          have harith : cs + i * cs = Nat.succ i * cs := by
            rw [Nat.succ_mul]
            exact Nat.add_comm cs (i * cs)
          rw [harith]
        have hih : (List.map (fun i => ((l.drop cs).drop (i * cs)).take cs)
            (List.range (((l.drop cs).length + cs - 1) / cs))).flatten = l.drop cs := by
          apply ih
          rw [hdl]
          omega
        rw [hmap, hih]
        simp

theorem effectiveChunkSize_pos (o : Option Nat) : 0 < effectiveChunkSize o := by
  cases o with
  | none => simp [effectiveChunkSize]
  | some n =>
      simp only [effectiveChunkSize]
      split <;> omega

/-- C4: the send path chunks the base64 encoding into
`ceil(length / chunkSize)` consecutive `chunkSize`-character slices, and
concatenating them in ascending index order restores the base64 string. -/
theorem sendFile_chunking_roundtrip (data : List Nat) (csOpt : Option Nat) :
    (sendFileChunkData data csOpt).length =
      totalChunksFor (base64encode data).length (effectiveChunkSize csOpt) ∧
    (∀ i, i < totalChunksFor (base64encode data).length (effectiveChunkSize csOpt) →
      (sendFileChunkData data csOpt).getD i [] =
        ((base64encode data).drop (i * effectiveChunkSize csOpt)).take
          (effectiveChunkSize csOpt)) ∧
    (sendFileChunkData data csOpt).flatten = base64encode data := by
  refine ⟨by simp [sendFileChunkData], ?_, ?_⟩
  · intro i hi
    simp [sendFileChunkData, List.getD_eq_getElem?_getD, List.getElem?_map,
      List.getElem?_range, hi]
  · have h := chunks_flatten_aux (effectiveChunkSize csOpt) (effectiveChunkSize_pos csOpt)
      (base64encode data).length (base64encode data) (le_refl _)
    simpa [sendFileChunkData, totalChunksFor] using h

theorem sendFile_chunking_roundtrip_witness :
    (sendFileChunkData [104, 105] (some 3)).getD 0 [] =
      ((base64encode [104, 105]).drop 0).take 3 ∧
    (sendFileChunkData [104, 105] (some 3)).flatten = base64encode [104, 105] :=
  ⟨(sendFile_chunking_roundtrip [104, 105] (some 3)).2.1 0 (by decide),
   (sendFile_chunking_roundtrip [104, 105] (some 3)).2.2⟩

theorem strJoin_append (l : List String) (s : String) :
    String.join (l ++ [s]) = String.join l ++ s := by
  simp [String.join, List.foldl_append]

theorem assemblyScan_succ (r : Nat → String) (n : Nat) :
    assemblyScan r (n + 1) =
      (if r n ≠ "" then ((assemblyScan r n).1 ++ r n, (assemblyScan r n).2)
       else ((assemblyScan r n).1, false)) := by
  simp [assemblyScan, List.range_succ, List.foldl_append]

theorem assemblyScan_complete (r : Nat → String) :
    ∀ n, (assemblyScan r n).2 = true →
      (∀ i, i < n → r i ≠ "") ∧
      (assemblyScan r n).1 = String.join ((List.range n).map r) := by
  intro n
  induction n with
  | zero =>
      intro _
      refine ⟨by omega, ?_⟩
      simp [assemblyScan, String.join]
  | succ n ih =>
      intro h
      have hsucc := assemblyScan_succ r n
      by_cases hr : r n = ""
      · rw [hsucc] at h
        simp [hr] at h
      · have h2 : (assemblyScan r n).2 = true := by
          rw [hsucc] at h
          simpa [hr] using h
        obtain ⟨hall, hstr⟩ := ih h2
        refine ⟨?_, ?_⟩
        · intro i hi
          rcases Nat.lt_or_ge i n with hlt | hge
          · exact hall i hlt
          · have : i = n := by omega
            subst this
            exact hr
        · rw [hsucc]
          simp only [hr, ne_eq, not_false_iff, if_true]
          rw [hstr, List.range_succ, List.map_append]
          simp [strJoin_append]

/-- C1: a `file-received` event is emitted only when every chunk index in
`[0, totalChunks)` is present, and its payload is the base64 decoding of the
in-order concatenation of the stored chunk strings with `size` equal to
`metadata.size`. -/
theorem file_received_complete (r : Nat → String) (m : FileMetadata)
    (fid : String) (ev : FileReceivedEvent)
    (hev : sweepReassembly r m fid = some ev) :
    (∀ i, i < m.totalChunks → r i ≠ "") ∧
    ev.data = base64decode (String.join ((List.range m.totalChunks).map r)) ∧
    ev.size = m.size := by
  unfold sweepReassembly at hev
  by_cases h2 : (assemblyScan r m.totalChunks).2 = true
  · obtain ⟨hall, hstr⟩ := assemblyScan_complete r m.totalChunks h2
    rw [if_pos h2] at hev
    have hev2 : reassembleFile (assemblyScan r m.totalChunks).1 m fid = ev :=
      Option.some.inj hev
    subst hev2
    exact ⟨hall, by rw [hstr]; rfl, rfl⟩
  · rw [if_neg (by simpa using h2)] at hev
    exact absurd hev (by simp)

theorem file_received_complete_witness :
    (∀ i, i < c1meta.totalChunks → c1chunks i ≠ "") ∧
    { filename := "h.txt", size := 2, data := [104, 105],
      fileId := "7-alpha-bravo" : FileReceivedEvent }.data =
      base64decode (String.join ((List.range c1meta.totalChunks).map c1chunks)) ∧
    { filename := "h.txt", size := 2, data := [104, 105],
      fileId := "7-alpha-bravo" : FileReceivedEvent }.size = c1meta.size :=
  file_received_complete c1chunks c1meta "7-alpha-bravo"
    { filename := "h.txt", size := 2, data := [104, 105], fileId := "7-alpha-bravo" }
    (by decide)

theorem alookup_filter_ne {α : Type} (l : List (String × α)) (k k0 : String)
    (hne : k ≠ k0) :
    alookup (l.filter (fun q => q.1 ≠ k0)) k = alookup l k := by
  induction l with
  | nil => rfl
  | cons hd tl ih =>
      rcases hd with ⟨a, b⟩
      by_cases ha : a = k0
      · subst ha
        rw [List.filter_cons, if_neg (by simp)]
        have hskip : alookup ((a, b) :: tl) k = alookup tl k := by
          simp [alookup, hne]
        rw [hskip]
        exact ih
      · rw [List.filter_cons, if_pos (by simp [ha])]
        by_cases hk : k = a
        · simp [alookup, hk]
        · simp only [alookup, if_neg hk]
          exact ih

theorem sawPeer_seen (env : ChanEnv) (st : ChannelState) (pk ek : String)
    (nowT : Nat) : ((sawPeer env st pk ek nowT).1).seen = st.seen := by
  simp only [sawPeer]
  repeat' split
  all_goals rfl

theorem dispatchPacket_seen (env : ChanEnv) (st : ChannelState) (p : Packet) :
    ((dispatchPacket env st p).1).seen = st.seen := by
  simp only [dispatchPacket]
  repeat' split
  all_goals rfl

theorem processSignedPacket_seen (env : ChanEnv) (st : ChannelState)
    (checksig : Bool) (p : Packet) (nowT : Nat) :
    ((processSignedPacket env st checksig p nowT).1).seen = st.seen := by
  unfold processSignedPacket
  split
  · rw [dispatchPacket_seen, sawPeer_seen]
  · rfl

theorem seenTruthy_assign_self (seen : List (String × Nat)) (h : String)
    (t : Nat) (ht : 0 < t) : seenTruthy (assignKey seen h t) h = true := by
  simp [seenTruthy, assignKey, alookup]
  omega

theorem seenTruthy_assign_other (seen : List (String × Nat)) (h h2 : String)
    (t : Nat) (hne : h ≠ h2) (h1 : seenTruthy seen h = true) :
    seenTruthy (assignKey seen h2 t) h = true := by
  simp only [seenTruthy, assignKey, alookup, if_neg hne]
  rw [alookup_filter_ne seen h h2 hne]
  simpa [seenTruthy] using h1

theorem onMessage_seen_drop (env : ChanEnv) (st : ChannelState) (m : List Nat)
    (nowT : Nat) (h : seenTruthy st.seen (onMessageHash m) = true) :
    onMessage env st m nowT = (st, []) := by
  unfold onMessage
  simp [h]

theorem onMessage_hash_seen (env : ChanEnv) (st : ChannelState) (m : List Nat)
    (nowT : Nat) (ht : 0 < nowT) :
    seenTruthy ((onMessage env st m nowT).1).seen (onMessageHash m) = true := by
  unfold onMessage
  by_cases h : seenTruthy st.seen (onMessageHash m) = true
  · simp [h]
  · simp only [h, Bool.false_eq_true, if_false]
    cases hp : env.parseEnvelope m with
    | none => exact seenTruthy_assign_self _ _ _ ht
    | some q =>
        simp only []
        rw [processSignedPacket_seen]
        exact seenTruthy_assign_self _ _ _ ht

theorem onMessage_seen_mono (env : ChanEnv) (st : ChannelState) (m : List Nat)
    (nowT : Nat) (h : String) (hh : seenTruthy st.seen h = true) :
    seenTruthy ((onMessage env st m nowT).1).seen h = true := by
  unfold onMessage
  by_cases hd : seenTruthy st.seen (onMessageHash m) = true
  · simpa [hd] using hh
  · have hne : h ≠ onMessageHash m := by
      intro e
      rw [e] at hh
      exact hd hh
    simp only [hd, Bool.false_eq_true, if_false]
    cases hp : env.parseEnvelope m with
    | none => exact seenTruthy_assign_other _ _ _ _ hne hh
    | some q =>
        simp only []
        rw [processSignedPacket_seen]
        exact seenTruthy_assign_other _ _ _ _ hne hh

theorem runTrace_seen_mono (env : ChanEnv) (h : String) :
    ∀ (tr : List (List Nat × Nat)) (st : ChannelState),
      seenTruthy st.seen h = true →
      seenTruthy (runTrace env st tr).seen h = true := by
  intro tr
  induction tr with
  | nil => intro st hst; exact hst
  | cons x rest ih =>
      intro st hst
      exact ih _ (onMessage_seen_mono env st x.1 x.2 h hst)

/-- C2: every incoming packet byte string is delivered at most once — its
hash enters the seen set when first processed, and every later receipt of
the same bytes, after any interleaved traffic, is dropped with no state
change, no parsing and no events, for every decode/verify environment. -/
theorem packet_delivered_at_most_once (env : ChanEnv) (st : ChannelState)
    (m : List Nat) (nowT : Nat) (hnow : 0 < nowT) :
    seenTruthy ((onMessage env st m nowT).1).seen (onMessageHash m) = true ∧
    ∀ (tr : List (List Nat × Nat)) (m2 : List Nat) (nowT2 : Nat),
      onMessageHash m2 = onMessageHash m →
      onMessage env (runTrace env (onMessage env st m nowT).1 tr) m2 nowT2 =
        (runTrace env (onMessage env st m nowT).1 tr, []) := by
  have h1 := onMessage_hash_seen env st m nowT hnow
  refine ⟨h1, ?_⟩
  intro tr m2 nowT2 hh
  apply onMessage_seen_drop
  rw [hh]
  exact runTrace_seen_mono env _ tr _ h1

theorem packet_delivered_at_most_once_witness :
    seenTruthy ((onMessage chanEnvLit chanStateEmpty [104, 105] 7).1).seen
      (onMessageHash [104, 105]) = true ∧
    ∀ (tr : List (List Nat × Nat)) (m2 : List Nat) (nowT2 : Nat),
      onMessageHash m2 = onMessageHash [104, 105] →
      onMessage chanEnvLit
          (runTrace chanEnvLit (onMessage chanEnvLit chanStateEmpty [104, 105] 7).1 tr)
          m2 nowT2 =
        (runTrace chanEnvLit (onMessage chanEnvLit chanStateEmpty [104, 105] 7).1 tr, []) :=
  packet_delivered_at_most_once chanEnvLit chanStateEmpty [104, 105] 7 (by decide)

/-- C8: a signed packet whose channel identifier differs from the local one,
or whose send time is more than `timeout` in the past, is discarded with no
peer-table update and no dispatch of any kind. -/
theorem stale_or_foreign_packet_dropped (env : ChanEnv) (st : ChannelState)
    (checksig : Bool) (p : Packet) (nowT : Nat)
    (hyp : p.i ≠ st.identifier ∨ p.t + st.timeout < nowT) :
    processSignedPacket env st checksig p nowT = (st, []) := by
  unfold processSignedPacket
  rw [if_neg]
  rintro ⟨hsig, hid, ht⟩
  rcases hyp with h | h
  · exact h hid
  · omega

theorem stale_or_foreign_packet_dropped_witness :
    processSignedPacket chanEnvLit chanStateEmpty true c8packet 300095 =
      (chanStateEmpty, []) :=
  stale_or_foreign_packet_dropped chanEnvLit chanStateEmpty true c8packet 300095
    (Or.inr (by decide))

theorem beBytes_length (n x : Nat) : (beBytes n x).length = n := by
  simp [beBytes]

theorem sha512_length (m : List Nat) : (sha512 m).length = 64 := by
  simp [sha512, beBytes_length]

theorem toHexStr_length (bs : List Nat) : (toHexStr bs).length = 2 * bs.length := by
  induction bs with
  | nil => rfl
  | cons b rest ih =>
      simp only [toHexStr, byteHex, List.flatMap_cons] at ih ⊢
      simp only [String.length] at ih ⊢
      simp at ih ⊢
      omega

/-- C3 (amended): the graph-store message key of `sendRaw` and the
deduplication hash of `onMessage` are the same function of the packet bytes
— the hex encoding of the SHA-512 digest with its first 16 bytes dropped
(48 bytes, 96 hex characters) — so the sender's recorded key always equals
the receiver's computed key. -/
theorem hash_key_consistent (m : List Nat) :
    sendRawKey m = onMessageHash m ∧
    sendRawKey m = toHexStr ((sha512 m).drop 16) ∧
    ((sha512 m).drop 16).length = 48 ∧
    (sendRawKey m).length = 96 := by
  refine ⟨rfl, rfl, ?_, ?_⟩
  · simp [sha512_length]
  · simp [sendRawKey, toHexStr_length, sha512_length]

/-- C3 counterexample: the key is not the hex of a 16-byte truncation of
SHA-512 — on the packet bytes of `"hi"`, the slice kept by the code has 48
bytes and its hex string differs from the hex of the first 16 bytes. -/
theorem hash_key_not_16_byte_truncation :
    ((sha512 (utf8Bytes "hi")).drop 16).length ≠ 16 ∧
    sendRawKey (utf8Bytes "hi") ≠ toHexStr ((sha512 (utf8Bytes "hi")).take 16) := by
  constructor
  · simp [sha512_length]
  · intro h
    have hlen := congrArg String.length h
    simp [sendRawKey, toHexStr_length, sha512_length, List.length_take] at hlen

theorem alookup_filter_keep {α : Type} (l : List (String × α))
    (p : String × α → Bool) (fid : String) (e : α)
    (h : alookup l fid = some e) (hp : p (fid, e) = true) :
    alookup (l.filter p) fid = some e := by
  induction l with
  | nil => exact absurd h (by simp [alookup])
  | cons hd tl ih =>
      rcases hd with ⟨a, b⟩
      by_cases hk : fid = a
      · subst hk
        simp only [alookup, if_pos rfl] at h
        have hb : b = e := Option.some.inj h
        subst hb
        rw [List.filter_cons, if_pos hp]
        simp [alookup]
      · simp only [alookup, if_neg hk] at h
        rw [List.filter_cons]
        by_cases hphd : p (a, b) = true
        · rw [if_pos hphd]
          simp only [alookup, if_neg hk]
          exact ih h
        · rw [if_neg hphd]
          exact ih h

theorem alookup_filter_self {α : Type} (l : List (String × α)) (fid : String) :
    alookup (l.filter (fun q => q.1 ≠ fid)) fid = none := by
  induction l with
  | nil => rfl
  | cons hd tl ih =>
      rcases hd with ⟨a, b⟩
      rw [List.filter_cons]
      by_cases ha : a = fid
      · rw [if_neg (by simp [ha])]
        exact ih
      · rw [if_pos (by simp [ha])]
        simp only [alookup, if_neg (Ne.symm ha)]
        exact ih

theorem cacheCleanupSweep_eq_filter (cache : List (String × CacheEntry))
    (nowT : Nat) (hnd : (cache.map Prod.fst).Nodup) :
    cacheCleanupSweep cache nowT =
      cache.filter (fun q => ¬ (CACHE_RETENTION < nowT - q.2.timestamp)) := by
  unfold cacheCleanupSweep
  apply List.filter_congr
  intro q hq
  have hiff : ((cache.filter
      (fun q => CACHE_RETENTION < nowT - q.2.timestamp)).map (·.1)).contains q.1 = true ↔
      CACHE_RETENTION < nowT - q.2.timestamp := by
    constructor
    · intro hc
      have hmem : q.1 ∈ (cache.filter
          (fun q => CACHE_RETENTION < nowT - q.2.timestamp)).map (·.1) := by
        simpa using hc
      obtain ⟨q2, hq2mem, hq2eq⟩ := List.mem_map.mp hmem
      have hq2 := List.mem_filter.mp hq2mem
      have : q2 = q := List.inj_on_of_nodup_map hnd hq2.1 hq hq2eq
      subst this
      simpa using hq2.2
    · intro hs
      have hmem : q ∈ cache.filter (fun q => CACHE_RETENTION < nowT - q.2.timestamp) :=
        List.mem_filter.mpr ⟨hq, by simpa using hs⟩
      simp only [List.contains_iff_exists_mem_beq]
      exact ⟨q.1, List.mem_map.mpr ⟨q, hmem, rfl⟩, by simp⟩
  by_cases hs : CACHE_RETENTION < nowT - q.2.timestamp
  · have hc := hiff.mpr hs
    simp only [decide_not, hc, Bool.not_true]
    simp [hs]
  · have hc : ((cache.filter
        (fun q => CACHE_RETENTION < nowT - q.2.timestamp)).map (·.1)).contains q.1 = false := by
      cases hcc : ((cache.filter
          (fun q => CACHE_RETENTION < nowT - q.2.timestamp)).map (·.1)).contains q.1
      · rfl
      · exact absurd (hiff.mp hcc) hs
    simp only [decide_not, hc, Bool.not_false]
    simp [hs]

/-- C5: the periodic sweeper evicts a cache entry only when
`now - created_at` exceeds the five-minute TTL — so every entry survives any
sweep within the TTL of its creation — and the `transfer-confirmed` handler
deletes exactly the entry for the given `fileId` and replies
`{success: true}`. -/
theorem cache_retention_and_confirm (cache : List (String × CacheEntry))
    (nowT : Nat) (hnd : (cache.map Prod.fst).Nodup) :
    (∀ fid e, alookup cache fid = some e → nowT ≤ e.timestamp + CACHE_RETENTION →
       alookup (cacheCleanupSweep cache nowT) fid = some e) ∧
    (∀ q, q ∈ cache → q ∉ cacheCleanupSweep cache nowT →
       CACHE_RETENTION < nowT - q.2.timestamp) ∧
    (∀ fid, (transferConfirmedHandler cache fid).2 =
        { success := true, error := none, fileId := none, chunks := [] } ∧
       alookup (transferConfirmedHandler cache fid).1 fid = none ∧
       (∀ fid2, fid2 ≠ fid →
          alookup (transferConfirmedHandler cache fid).1 fid2 = alookup cache fid2)) ∧
    CACHE_RETENTION = 5 * 60 * 1000 ∧ CACHE_SWEEP_INTERVAL = 60000 := by
  refine ⟨?_, ?_, ?_, rfl, rfl⟩
  · intro fid e he hfresh
    rw [cacheCleanupSweep_eq_filter cache nowT hnd]
    apply alookup_filter_keep cache _ fid e he
    simp only [decide_not]
    have : ¬ CACHE_RETENTION < nowT - e.timestamp := by omega
    simp [this]
  · intro q hq hnot
    rw [cacheCleanupSweep_eq_filter cache nowT hnd] at hnot
    by_contra hfresh
    apply hnot
    apply List.mem_filter.mpr
    refine ⟨hq, ?_⟩
    simp only [decide_not]
    simp [hfresh]
  · intro fid
    refine ⟨rfl, ?_, ?_⟩
    · exact alookup_filter_self cache fid
    · intro fid2 hne
      exact alookup_filter_ne cache fid2 fid hne

theorem cache_retention_and_confirm_witness :
    (∀ fid e, alookup c5cache fid = some e → 1000005 ≤ e.timestamp + CACHE_RETENTION →
       alookup (cacheCleanupSweep c5cache 1000005) fid = some e) ∧
    (∀ q, q ∈ c5cache → q ∉ cacheCleanupSweep c5cache 1000005 →
       CACHE_RETENTION < 1000005 - q.2.timestamp) ∧
    (∀ fid, (transferConfirmedHandler c5cache fid).2 =
        { success := true, error := none, fileId := none, chunks := [] } ∧
       alookup (transferConfirmedHandler c5cache fid).1 fid = none ∧
       (∀ fid2, fid2 ≠ fid →
          alookup (transferConfirmedHandler c5cache fid).1 fid2 = alookup c5cache fid2)) ∧
    CACHE_RETENTION = 5 * 60 * 1000 ∧ CACHE_SWEEP_INTERVAL = 60000 :=
  cache_retention_and_confirm c5cache 1000005 (by decide)

theorem requestChunks_foldl_eq_filterMap (chunksMap : List (Nat × String))
    (missing : List Nat) (acc : List (Nat × String)) :
    missing.foldl
      (fun acc i =>
        match alookup chunksMap i with
        | some d => if d = "" then acc else acc ++ [(i, d)]
        | none => acc) acc =
    acc ++ missing.filterMap
      (fun i =>
        match alookup chunksMap i with
        | some d => if d = "" then none else some (i, d)
        | none => none) := by
  induction missing generalizing acc with
  | nil => simp
  | cons j rest ih =>
      simp only [List.foldl_cons, List.filterMap_cons]
      cases hl : alookup chunksMap j with
      | none => simp [hl, ih]
      | some d =>
          by_cases hd : d = ""
          · simp [hl, hd, ih]
          · simp [hl, hd, ih]

theorem filterMap_filter_key_not_mem (g : Nat → Option (Nat × String))
    (hg : ∀ j x, g j = some x → x.1 = j) (i : Nat) :
    ∀ l : List Nat, i ∉ l →
      (l.filterMap g).filter (fun q => q.1 = i) = [] := by
  intro l
  induction l with
  | nil => intro _; rfl
  | cons j rest ih =>
      intro hni
      have hji : j ≠ i := by
        intro he
        exact hni (he ▸ List.mem_cons_self j rest)
      have hrest : i ∉ rest := fun hr => hni (List.mem_cons_of_mem j hr)
      simp only [List.filterMap_cons]
      cases hgj : g j with
      | none => exact ih hrest
      | some x =>
          have hx := hg j x hgj
          rw [List.filter_cons, if_neg (by simp [hx, hji])]
          exact ih hrest

theorem filterMap_filter_key_unique (g : Nat → Option (Nat × String))
    (hg : ∀ j x, g j = some x → x.1 = j) (i : Nat) (x : Nat × String)
    (hgi : g i = some x) :
    ∀ l : List Nat, l.Nodup → i ∈ l →
      (l.filterMap g).filter (fun q => q.1 = i) = [x] := by
  intro l
  induction l with
  | nil => intro _ hi; exact absurd hi (List.not_mem_nil i)
  | cons j rest ih =>
      intro hnd hi
      have hnd2 := List.nodup_cons.mp hnd
      simp only [List.filterMap_cons]
      by_cases hj : j = i
      · subst hj
        rw [hgi]
        rw [List.filter_cons, if_pos (by simp [hg j x hgi])]
        rw [filterMap_filter_key_not_mem g hg j rest hnd2.1]
      · have hirest : i ∈ rest := by
          rcases List.mem_cons.mp hi with he | hr
          · exact absurd he.symm hj
          · exact hr
        cases hgj : g j with
        | none => exact ih hnd2.2 hirest
        | some y =>
            have hy := hg j y hgj
            rw [List.filter_cons, if_neg (by simp [hy, hj])]
            exact ih hnd2.2 hirest

/-- C6 (amended): a `request-chunks` invocation replies with the exact
cache-miss error when the `fileId` is unknown; otherwise it replies success
with, for every occurrence of a requested index whose entry is present in
the cached chunk map, one `{index, data}` pair, in request order — absent
requested indices are omitted, no unrequested index appears, and when the
request list has no duplicates each present requested index yields exactly
one pair. -/
theorem request_chunks_reply (cache : List (String × CacheEntry)) (fid : String)
    (missing : List Nat) :
    (alookup cache fid = none →
       requestChunksHandler cache fid missing =
         { success := false, error := some "File not in cache", fileId := none,
           chunks := [] }) ∧
    (∀ cached, alookup cache fid = some cached →
       (requestChunksHandler cache fid missing).success = true ∧
       (requestChunksHandler cache fid missing).error = none ∧
       (requestChunksHandler cache fid missing).fileId = some fid ∧
       (requestChunksHandler cache fid missing).chunks =
         missing.filterMap
           (fun i =>
             match alookup cached.chunks i with
             | some d => if d = "" then none else some (i, d)
             | none => none) ∧
       (∀ x, x ∈ (requestChunksHandler cache fid missing).chunks →
          x.1 ∈ missing ∧ alookup cached.chunks x.1 = some x.2) ∧
       (missing.Nodup →
          ∀ i d, i ∈ missing → alookup cached.chunks i = some d → d ≠ "" →
            (requestChunksHandler cache fid missing).chunks.filter
              (fun q => q.1 = i) = [(i, d)])) := by
  constructor
  · intro hmiss
    unfold requestChunksHandler
    rw [hmiss]
  · intro cached hhit
    have hg : ∀ j x, (fun i =>
        match alookup cached.chunks i with
        | some d => if d = "" then none else some (i, d)
        | none => none) j = some x → x.1 = j := by
      intro j x hx
      dsimp only at hx
      cases hl : alookup cached.chunks j with
      | none => rw [hl] at hx; exact absurd hx (by simp)
      | some d =>
          rw [hl] at hx
          dsimp only at hx
          by_cases hd : d = ""
          · rw [if_pos hd] at hx
            exact absurd hx (by simp)
          · rw [if_neg hd] at hx
            have := Option.some.inj hx
            rw [← this]
    have hchunks : (requestChunksHandler cache fid missing).chunks =
        missing.filterMap
          (fun i =>
            match alookup cached.chunks i with
            | some d => if d = "" then none else some (i, d)
            | none => none) := by
      unfold requestChunksHandler
      rw [hhit]
      simpa using requestChunks_foldl_eq_filterMap cached.chunks missing []
    refine ⟨?_, ?_, ?_, hchunks, ?_, ?_⟩
    · unfold requestChunksHandler; rw [hhit]
    · unfold requestChunksHandler; rw [hhit]
    · unfold requestChunksHandler; rw [hhit]
    · intro x hx
      rw [hchunks] at hx
      obtain ⟨a, ha, hga⟩ := List.mem_filterMap.mp hx
      have hax : x.1 = a := hg a x hga
      cases hl : alookup cached.chunks a with
      | none => rw [hl] at hga; exact absurd hga (by simp)
      | some d =>
          rw [hl] at hga
          dsimp only at hga
          by_cases hd : d = ""
          · rw [if_pos hd] at hga
            exact absurd hga (by simp)
          · rw [if_neg hd] at hga
            have hxad := Option.some.inj hga
            refine ⟨hax ▸ ha, ?_⟩
            rw [hax, hl, ← hxad]
    · intro hnodup i d hi hl hd
      rw [hchunks]
      exact filterMap_filter_key_unique _ hg i (i, d) (by simp [hl, hd]) missing hnodup hi

/-- C6 counterexample: invoking the handler with the duplicate request list
`[0, 0]` on a cache that holds chunk `0` yields two pairs for the single
requested index `0`, so the reply does not contain exactly one pair per
present requested index. -/
theorem request_chunks_duplicate_pairs :
    (requestChunksHandler c6cache "7-alpha-bravo" [0, 0]).chunks =
      [(0, "AA"), (0, "AA")] ∧
    ((requestChunksHandler c6cache "7-alpha-bravo" [0, 0]).chunks.filter
      (fun q => q.1 = 0)).length ≠ 1 := by
  constructor
  · decide
  · decide

theorem request_chunks_reply_witness :
    (alookup c6cache "9-golf-hotel" = none →
       requestChunksHandler c6cache "9-golf-hotel" [0, 2] =
         { success := false, error := some "File not in cache", fileId := none,
           chunks := [] }) ∧
    (∀ cached, alookup c6cache "9-golf-hotel" = some cached →
       (requestChunksHandler c6cache "9-golf-hotel" [0, 2]).success = true ∧
       (requestChunksHandler c6cache "9-golf-hotel" [0, 2]).error = none ∧
       (requestChunksHandler c6cache "9-golf-hotel" [0, 2]).fileId =
         some "9-golf-hotel" ∧
       (requestChunksHandler c6cache "9-golf-hotel" [0, 2]).chunks =
         [0, 2].filterMap
           (fun i =>
             match alookup cached.chunks i with
             | some d => if d = "" then none else some (i, d)
             | none => none) ∧
       (∀ x, x ∈ (requestChunksHandler c6cache "9-golf-hotel" [0, 2]).chunks →
          x.1 ∈ [0, 2] ∧ alookup cached.chunks x.1 = some x.2) ∧
       ([0, 2].Nodup →
          ∀ i d, i ∈ [0, 2] → alookup cached.chunks i = some d → d ≠ "" →
            (requestChunksHandler c6cache "9-golf-hotel" [0, 2]).chunks.filter
              (fun q => q.1 = i) = [(i, d)])) :=
  request_chunks_reply c6cache "9-golf-hotel" [0, 2]

/-- C7: a directed `send` or an `rpc` to an address absent from the peer
table raises the synchronous `UnknownPeer` error, leaving the state
unchanged, writing nothing to the graph store and registering no callback;
on a well-keyed table, a present address raises no error. -/
theorem unknown_peer_raises (env : ChanEnv) (st : ChannelState)
    (address packet callnonce : String) (nowT : Nat)
    (hwk : wellKeyedPeers env st.peers) :
    (alookup st.peers address = none →
       yumiSendDirected env st address packet nowT =
         (st, [], some (address ++ " not seen - no public key.")) ∧
       yumiRpc env st address packet callnonce nowT =
         (st, [], some (address ++ " not seen - no public key."))) ∧
    (∀ pinfo, alookup st.peers address = some pinfo →
       (yumiSendDirected env st address packet nowT).2.2 = none ∧
       (yumiRpc env st address packet callnonce nowT).2.2 = none) := by
  constructor
  · intro hmiss
    constructor
    · unfold yumiSendDirected
      rw [hmiss]
    · unfold yumiRpc
      rw [hmiss]
  · intro pinfo hhit
    have haddr : env.addrOf pinfo.pk = address := hwk address pinfo hhit
    constructor
    · unfold yumiSendDirected encryptPacket
      rw [hhit]
      dsimp only
      rw [haddr, hhit]
    · unfold yumiRpc encryptPacket
      rw [hhit]
      dsimp only
      rw [haddr, hhit]

theorem unknown_peer_raises_witness :
    (alookup c7state.peers "addrB" = none →
       yumiSendDirected chanEnvLit c7state "addrB" "pkt" 9 =
         (c7state, [], some ("addrB" ++ " not seen - no public key.")) ∧
       yumiRpc chanEnvLit c7state "addrB" "pkt" "aa11" 9 =
         (c7state, [], some ("addrB" ++ " not seen - no public key."))) ∧
    (∀ pinfo, alookup c7state.peers "addrB" = some pinfo →
       (yumiSendDirected chanEnvLit c7state "addrB" "pkt" 9).2.2 = none ∧
       (yumiRpc chanEnvLit c7state "addrB" "pkt" "aa11" 9).2.2 = none) :=
  unknown_peer_raises chanEnvLit c7state "addrB" "pkt" "aa11" 9
    (by
      intro a pinfo h
      simp only [c7state, alookup] at h
      by_cases ha : a = "addrA"
      · rw [if_pos ha] at h
        have := Option.some.inj h
        rw [← this, ha]
        rfl
      · rw [if_neg ha] at h
        exact absurd h (by simp [alookup]))

/-- C9: a `Yari` broadcast performs no directed Channel sends at all — the
broadcast branch emits three-element `[peer, ciphertext, msgId]` payloads on
the internal `encoded` event, and the constructor's listener forwards only
arrays of length exactly 2 to `yumi.send`, rejecting every broadcast payload
— shown both in general and on a concrete one-peer table with successful
encryption, where the specified behaviour would be exactly one send. -/
theorem yari_broadcast_sends_nothing :
    (∀ (peers : List (String × YariPeer)) (encrypt : YariPeer → Option String)
       (msgId : String), yariBroadcastSends peers encrypt msgId = []) ∧
    yariBroadcastPayloads [("peerA", { pub := "p1", epub := "e1" })]
      (fun _ => some "ct") "id1" = [["peerA", "ct", "id1"]] ∧
    yariBroadcastSends [("peerA", { pub := "p1", epub := "e1" })]
      (fun _ => some "ct") "id1" = [] := by
  refine ⟨?_, by decide, by decide⟩
  intro peers encrypt msgId
  unfold yariBroadcastSends yariBroadcastPayloads
  induction peers with
  | nil => rfl
  | cons q rest ih =>
      simp only [List.filterMap_cons]
      cases he : encrypt q.2 with
      | none => simpa using ih
      | some enc => simpa [encodedListener] using ih

theorem sawPeer_callbacks (env : ChanEnv) (st : ChannelState) (pk ek : String)
    (nowT : Nat) : ((sawPeer env st pk ek nowT).1).callbacks = st.callbacks := by
  simp only [sawPeer]
  repeat' split
  all_goals rfl

theorem sawPeer_invokedCount (env : ChanEnv) (st : ChannelState) (pk ek : String)
    (nowT : Nat) (nonce : String) :
    invokedCount nonce ((sawPeer env st pk ek nowT).2) = 0 := by
  simp only [sawPeer]
  repeat' split
  all_goals simp [invokedCount, ChEvent.isInvokeOf]

theorem mem_filter_ne_self (l : List String) (nonce : String) :
    nonce ∉ l.filter (fun q => q ≠ nonce) := by
  intro hmem
  have := (List.mem_filter.mp hmem).2
  simp at this

theorem not_mem_filter_of_not_mem (l : List String) (p : String → Bool)
    (nonce : String) (h : nonce ∉ l) : nonce ∉ l.filter p := by
  intro hmem
  exact h (List.mem_filter.mp hmem).1

theorem invokedCount_append (nonce : String) (l1 l2 : List ChEvent) :
    invokedCount nonce (l1 ++ l2) = invokedCount nonce l1 + invokedCount nonce l2 := by
  simp [invokedCount, List.filter_append]

theorem dispatch_no_callback_no_invoke (env : ChanEnv) (st : ChannelState)
    (p : Packet) (nonce : String) (hnc : nonce ∉ st.callbacks) :
    invokedCount nonce (dispatchPacket env st p).2 = 0 ∧
    nonce ∉ ((dispatchPacket env st p).1).callbacks := by
  unfold dispatchPacket
  by_cases hm : p.y = "m"
  · rw [if_pos hm]
    dsimp only
    repeat' split
    all_goals exact ⟨by simp [invokedCount, ChEvent.isInvokeOf], hnc⟩
  · rw [if_neg hm]
    by_cases hr : p.y = "r"
    · rw [if_pos hr]
      dsimp only
      refine ⟨?_, hnc⟩
      rw [invokedCount_append]
      repeat' split
      all_goals simp [invokedCount, ChEvent.isInvokeOf]
    · rw [if_neg hr]
      by_cases hrr : p.y = "rr"
      · rw [if_pos hrr]
        cases hrn2 : p.rn with
        | none => exact ⟨by simp [invokedCount], hnc⟩
        | some nonce2 =>
            dsimp only
            by_cases hmem : nonce2 ∈ st.callbacks
            · rw [if_pos hmem]
              cases hp : env.parse (orNullStr p.rr) with
              | none => exact ⟨by simp [invokedCount], hnc⟩
              | some j =>
                  dsimp only
                  by_cases ht : j.truthy = true
                  · rw [if_pos ht]
                    have hne : nonce2 ≠ nonce := fun he => hnc (he ▸ hmem)
                    exact ⟨by simp [invokedCount, ChEvent.isInvokeOf, hne],
                           not_mem_filter_of_not_mem st.callbacks _ nonce hnc⟩
                  · rw [if_neg ht]
                    exact ⟨by simp [invokedCount], hnc⟩
            · rw [if_neg hmem]
              exact ⟨by simp [invokedCount], hnc⟩
      · rw [if_neg hrr]
        by_cases hpp : p.y = "p"
        · rw [if_pos hpp]
          exact ⟨by simp [invokedCount, ChEvent.isInvokeOf], hnc⟩
        · rw [if_neg hpp]
          by_cases hx : p.y = "x"
          · rw [if_pos hx]
            exact ⟨by simp [invokedCount, ChEvent.isInvokeOf], hnc⟩
          · rw [if_neg hx]
            exact ⟨by simp [invokedCount], hnc⟩

theorem dispatch_rr_truthy (env : ChanEnv) (st : ChannelState) (p : Packet)
    (nonce : String) (j : JsonV) (hy : p.y = "rr") (hrn : p.rn = some nonce)
    (hmem : nonce ∈ st.callbacks) (hp : env.parse (orNullStr p.rr) = some j)
    (ht : j.truthy = true) :
    dispatchPacket env st p =
      ({ st with callbacks := st.callbacks.filter (fun q => q ≠ nonce) },
       [ChEvent.rpcResponse (env.addrOf p.pk) nonce j,
        ChEvent.callbackInvoked nonce j]) := by
  unfold dispatchPacket
  rw [if_neg (by simp [hy]), if_neg (by simp [hy]), if_pos hy, hrn]
  dsimp only
  rw [if_pos hmem, hp]
  dsimp only
  rw [if_pos ht]

theorem dispatch_rr_nocb (env : ChanEnv) (st : ChannelState) (p : Packet)
    (nonce : String) (hy : p.y = "rr") (hrn : p.rn = some nonce)
    (hmem : nonce ∉ st.callbacks) :
    dispatchPacket env st p = (st, []) := by
  unfold dispatchPacket
  rw [if_neg (by simp [hy]), if_neg (by simp [hy]), if_pos hy, hrn]
  dsimp only
  rw [if_neg hmem]

theorem dispatch_rr_parsefail (env : ChanEnv) (st : ChannelState) (p : Packet)
    (nonce : String) (hy : p.y = "rr") (hrn : p.rn = some nonce)
    (hmem : nonce ∈ st.callbacks) (hp : env.parse (orNullStr p.rr) = none) :
    dispatchPacket env st p = (st, []) := by
  unfold dispatchPacket
  rw [if_neg (by simp [hy]), if_neg (by simp [hy]), if_pos hy, hrn]
  dsimp only
  rw [if_pos hmem, hp]

theorem dispatch_rr_falsy (env : ChanEnv) (st : ChannelState) (p : Packet)
    (nonce : String) (j : JsonV) (hy : p.y = "rr") (hrn : p.rn = some nonce)
    (hmem : nonce ∈ st.callbacks) (hp : env.parse (orNullStr p.rr) = some j)
    (ht : j.truthy = false) :
    dispatchPacket env st p = (st, []) := by
  unfold dispatchPacket
  rw [if_neg (by simp [hy]), if_neg (by simp [hy]), if_pos hy, hrn]
  dsimp only
  rw [if_pos hmem, hp]
  dsimp only
  rw [if_neg (by simp [ht])]

theorem dispatch_invoke_le_one (env : ChanEnv) (st : ChannelState) (p : Packet)
    (nonce : String) :
    invokedCount nonce (dispatchPacket env st p).2 ≤ 1 := by
  unfold dispatchPacket
  by_cases hm : p.y = "m"
  · rw [if_pos hm]
    dsimp only
    repeat' split
    all_goals simp [invokedCount, ChEvent.isInvokeOf]
  · rw [if_neg hm]
    by_cases hr : p.y = "r"
    · rw [if_pos hr]
      dsimp only
      rw [invokedCount_append]
      repeat' split
      all_goals simp [invokedCount, ChEvent.isInvokeOf]
    · rw [if_neg hr]
      by_cases hrr : p.y = "rr"
      · rw [if_pos hrr]
        cases hrn2 : p.rn with
        | none => simp [invokedCount]
        | some nonce2 =>
            dsimp only
            by_cases hmem : nonce2 ∈ st.callbacks
            · rw [if_pos hmem]
              cases hp : env.parse (orNullStr p.rr) with
              | none => simp [invokedCount]
              | some j =>
                  dsimp only
                  by_cases ht : j.truthy = true
                  · rw [if_pos ht]
                    by_cases hne : nonce2 = nonce <;>
                      simp [invokedCount, ChEvent.isInvokeOf, hne]
                  · rw [if_neg ht]
                    simp [invokedCount]
            · rw [if_neg hmem]
              simp [invokedCount]
      · rw [if_neg hrr]
        by_cases hpp : p.y = "p"
        · rw [if_pos hpp]
          simp [invokedCount, ChEvent.isInvokeOf]
        · rw [if_neg hpp]
          by_cases hx : p.y = "x"
          · rw [if_pos hx]
            simp [invokedCount, ChEvent.isInvokeOf]
          · rw [if_neg hx]
            simp [invokedCount]

theorem processSignedPacket_no_callback (env : ChanEnv) (st : ChannelState)
    (b : Bool) (p : Packet) (nowT : Nat) (nonce : String)
    (hnc : nonce ∉ st.callbacks) :
    invokedCount nonce (processSignedPacket env st b p nowT).2 = 0 ∧
    nonce ∉ ((processSignedPacket env st b p nowT).1).callbacks := by
  unfold processSignedPacket
  split
  · dsimp only
    rw [invokedCount_append, sawPeer_invokedCount]
    have hnc1 : nonce ∉ ((sawPeer env st p.pk p.ek nowT).1).callbacks := by
      rw [sawPeer_callbacks]
      exact hnc
    have hd := dispatch_no_callback_no_invoke env (sawPeer env st p.pk p.ek nowT).1 p nonce hnc1
    exact ⟨by rw [hd.1], hd.2⟩
  · exact ⟨by simp [invokedCount], hnc⟩

/-- C10 (amended): a pending RPC callback is invoked at most once per
response — a verified response whose result string parses to a truthy JSON
value invokes the callback once with the parsed result and deletes the
entry, after which no packet can invoke that nonce again; a response whose
nonce is unregistered, whose result fails to parse, or whose result parses
to a falsy value (such as `null`) invokes nothing and leaves the callback
table unchanged. -/
theorem rpc_response_invoked_at_most_once (env : ChanEnv) (st : ChannelState)
    (p : Packet) (nowT : Nat) (nonce : String)
    (hy : p.y = "rr") (hrn : p.rn = some nonce) :
    invokedCount nonce (processSignedPacket env st true p nowT).2 ≤ 1 ∧
    (nonce ∉ st.callbacks →
       ((processSignedPacket env st true p nowT).1).callbacks = st.callbacks ∧
       invokedCount nonce (processSignedPacket env st true p nowT).2 = 0) ∧
    (∀ j, nonce ∈ st.callbacks → env.parse (orNullStr p.rr) = some j →
       j.truthy = true → p.i = st.identifier → p.t + st.timeout > nowT →
       invokedCount nonce (processSignedPacket env st true p nowT).2 = 1 ∧
       ((processSignedPacket env st true p nowT).1).callbacks =
         st.callbacks.filter (fun q => q ≠ nonce) ∧
       nonce ∉ ((processSignedPacket env st true p nowT).1).callbacks) ∧
    (∀ j, env.parse (orNullStr p.rr) = some j → j.truthy = false →
       ((processSignedPacket env st true p nowT).1).callbacks = st.callbacks ∧
       invokedCount nonce (processSignedPacket env st true p nowT).2 = 0) ∧
    (env.parse (orNullStr p.rr) = none →
       ((processSignedPacket env st true p nowT).1).callbacks = st.callbacks ∧
       invokedCount nonce (processSignedPacket env st true p nowT).2 = 0) ∧
    (∀ (env2 : ChanEnv) (st2 : ChannelState) (b2 : Bool) (p2 : Packet) (t2 : Nat),
       nonce ∉ st2.callbacks →
       invokedCount nonce (processSignedPacket env2 st2 b2 p2 t2).2 = 0 ∧
       nonce ∉ ((processSignedPacket env2 st2 b2 p2 t2).1).callbacks) := by
  refine ⟨?_, ?_, ?_, ?_, ?_, ?_⟩
  · unfold processSignedPacket
    split
    · dsimp only
      rw [invokedCount_append, sawPeer_invokedCount]
      simpa using dispatch_invoke_le_one env (sawPeer env st p.pk p.ek nowT).1 p nonce
    · simp [invokedCount]
  · intro hnc
    unfold processSignedPacket
    split
    · dsimp only
      have hd := dispatch_rr_nocb env (sawPeer env st p.pk p.ek nowT).1 p nonce hy hrn
        (by rw [sawPeer_callbacks]; exact hnc)
      rw [hd]
      refine ⟨by rw [sawPeer_callbacks], ?_⟩
      rw [invokedCount_append, sawPeer_invokedCount]
      simp [invokedCount]
    · exact ⟨rfl, by simp [invokedCount]⟩
  · intro j hmem hp ht hid hti
    unfold processSignedPacket
    rw [if_pos ⟨rfl, hid, hti⟩]
    dsimp only
    have hd := dispatch_rr_truthy env (sawPeer env st p.pk p.ek nowT).1 p nonce j hy hrn
      (by rw [sawPeer_callbacks]; exact hmem) hp ht
    rw [hd]
    refine ⟨?_, ?_, ?_⟩
    · rw [invokedCount_append, sawPeer_invokedCount]
      simp [invokedCount, ChEvent.isInvokeOf]
    · dsimp only
      rw [sawPeer_callbacks]
    · dsimp only
      rw [sawPeer_callbacks]
      exact mem_filter_ne_self st.callbacks nonce
  · intro j hp ht
    unfold processSignedPacket
    split
    · dsimp only
      by_cases hmem : nonce ∈ ((sawPeer env st p.pk p.ek nowT).1).callbacks
      · have hd := dispatch_rr_falsy env (sawPeer env st p.pk p.ek nowT).1 p nonce j hy hrn hmem hp ht
        rw [hd]
        refine ⟨by rw [sawPeer_callbacks], ?_⟩
        rw [invokedCount_append, sawPeer_invokedCount]
        simp [invokedCount]
      · have hd := dispatch_rr_nocb env (sawPeer env st p.pk p.ek nowT).1 p nonce hy hrn hmem
        rw [hd]
        refine ⟨by rw [sawPeer_callbacks], ?_⟩
        rw [invokedCount_append, sawPeer_invokedCount]
        simp [invokedCount]
    · exact ⟨rfl, by simp [invokedCount]⟩
  · intro hp
    unfold processSignedPacket
    split
    · dsimp only
      by_cases hmem : nonce ∈ ((sawPeer env st p.pk p.ek nowT).1).callbacks
      · have hd := dispatch_rr_parsefail env (sawPeer env st p.pk p.ek nowT).1 p nonce hy hrn hmem hp
        rw [hd]
        refine ⟨by rw [sawPeer_callbacks], ?_⟩
        rw [invokedCount_append, sawPeer_invokedCount]
        simp [invokedCount]
      · have hd := dispatch_rr_nocb env (sawPeer env st p.pk p.ek nowT).1 p nonce hy hrn hmem
        rw [hd]
        refine ⟨by rw [sawPeer_callbacks], ?_⟩
        rw [invokedCount_append, sawPeer_invokedCount]
        simp [invokedCount]
    · exact ⟨rfl, by simp [invokedCount]⟩
  · intro env2 st2 b2 p2 t2 hnc2
    exact processSignedPacket_no_callback env2 st2 b2 p2 t2 nonce hnc2

/-- C10 counterexample: a verified response for the registered nonce
`"aabb"` whose result string is `"null"` parses as JSON, yet the callback is
not invoked and the pending entry is not deleted. -/
theorem rpc_response_null_result_not_invoked :
    jsParseLit "null" = some JsonV.null ∧
    invokedCount "aabb" (processSignedPacket chanEnvLit c10state true c10packet 100).2 = 0 ∧
    ((processSignedPacket chanEnvLit c10state true c10packet 100).1).callbacks =
      ["aabb"] := by
  refine ⟨by decide, by decide, by decide⟩

theorem rpc_response_invoked_at_most_once_witness :
    invokedCount "aabb" (processSignedPacket chanEnvLit c10state true c10truthyPacket 100).2 = 1 ∧
    ((processSignedPacket chanEnvLit c10state true c10truthyPacket 100).1).callbacks =
      c10state.callbacks.filter (fun q => q ≠ "aabb") ∧
    "aabb" ∉ ((processSignedPacket chanEnvLit c10state true c10truthyPacket 100).1).callbacks :=
  (rpc_response_invoked_at_most_once chanEnvLit c10state c10truthyPacket 100 "aabb"
    rfl rfl).2.2.1 (JsonV.num 7) (by decide) (by decide) (by decide) rfl (by decide)
